import Mathlib

/-!
Verification of the account-transaction-parser replay engine.

Shallow embedding of `src/src/lib.rs` (the library is the authoritative
version; `src/src/main.rs` duplicates the same logic inline):

* `rust_decimal::Decimal` is modelled as `Rat`: exact decimal arithmetic,
  addition and subtraction are exact (the spec's stated invariant).
* `u16` client ids and `u32` tx ids are modelled as `Nat`; no claim depends
  on wrap-around, and the code never performs arithmetic on them.
* `HashMap` is modelled as an association list with insert-or-overwrite
  (`mapInsert`) and `mapLookup`; `Box<Transaction>` is a by-value copy, so
  it is modelled as the transaction itself.
* CSV deserialization is out of scope (external record source); a raw input
  row is modelled as `Option Transaction`, `none` standing for a record the
  source failed to parse (the `.flatten()` in `process_transactions` skips
  those).
-/

mutual

/-- Embeds `enum TransactionType` from lib.rs: the three dispute-family variants
carry an optional boxed copy of the referenced transaction. -/
inductive TransactionType : Type where
  | deposit : TransactionType
  | withdrawal : TransactionType
  | dispute : Option Transaction → TransactionType
  | resolve : Option Transaction → TransactionType
  | chargeback : Option Transaction → TransactionType

/-- Embeds `struct Transaction` from lib.rs. -/
inductive Transaction : Type where
  | mk : TransactionType → Nat → Nat → Option Rat → Transaction

end

/-- Field accessor for `transaction_type`. -/
def Transaction.transaction_type : Transaction → TransactionType
  | .mk t _ _ _ => t

/-- Field accessor for `client`. -/
def Transaction.client : Transaction → Nat
  | .mk _ c _ _ => c

/-- Field accessor for `tx`. -/
def Transaction.tx : Transaction → Nat
  | .mk _ _ t _ => t

/-- Field accessor for the `amount` field (`Option<Decimal>`). -/
def Transaction.amountField : Transaction → Option Rat
  | .mk _ _ _ a => a

/-- Embeds `Transaction::amount()`: the amount with `None` defaulted to zero. -/
def Transaction.amount (t : Transaction) : Rat :=
  match t.amountField with
  | some amount => amount
  | none => 0

/-- Embeds `struct Account` from lib.rs. -/
structure Account : Type where
  client : Nat
  available : Rat
  held : Rat
  locked : Bool
deriving DecidableEq, Repr

/-- Embeds `Account::total()`: `available + held`, computed on demand. -/
def Account.total (a : Account) : Rat :=
  a.available + a.held

/-- Embeds `Account::update_transaction` from lib.rs lines 138-176: apply one
transaction to the account, mutating it in place (modelled functionally). -/
def Account.update_transaction (a : Account) (transaction : Transaction) : Account :=
  match transaction.transaction_type with
  | .deposit =>
      { a with available := a.available + transaction.amount }
  | .withdrawal =>
      { a with available := a.available - transaction.amount }
  | .dispute ref_transaction =>
      match ref_transaction with
      | some t => { a with held := a.held + t.amount, available := a.available - t.amount }
      | none => a
  | .resolve ref_transaction =>
      match ref_transaction with
      | some t => { a with held := a.held - t.amount, available := a.available + t.amount }
      | none => a
  | .chargeback ref_transaction =>
      match ref_transaction with
      | some t =>
          { a with held := a.held - t.amount, available := a.available - t.amount,
                   locked := true }
      | none => a

/-- Insert-or-overwrite for the association-list model of `HashMap`. -/
def mapInsert {β : Type} (k : Nat) (v : β) : List (Nat × β) → List (Nat × β)
  | [] => [(k, v)]
  | (k₁, v₁) :: rest =>
      if k = k₁ then (k, v) :: rest else (k₁, v₁) :: mapInsert k v rest

/-- Lookup for the association-list model of `HashMap`. -/
def mapLookup {β : Type} (k : Nat) : List (Nat × β) → Option β
  | [] => none
  | (k₁, v₁) :: rest => if k = k₁ then some v₁ else mapLookup k rest

/-- Embeds `get_boxed_transaction`: look up `tx` in the ledger index and return a
by-value copy of the found transaction. -/
def get_boxed_transaction (tx : Nat) (transactions : List (Nat × Transaction)) :
    Option Transaction :=
  mapLookup tx transactions

/-- Embeds `Transaction::link_transaction`: for a dispute-family transaction,
replace the (stale) reference by the ledger lookup of its own `tx`;
no-op for deposits and withdrawals. -/
def Transaction.link_transaction (t : Transaction)
    (transactions : List (Nat × Transaction)) : Transaction :=
  match t.transaction_type with
  | .dispute _ =>
      .mk (.dispute (get_boxed_transaction t.tx transactions)) t.client t.tx t.amountField
  | .chargeback _ =>
      .mk (.chargeback (get_boxed_transaction t.tx transactions)) t.client t.tx t.amountField
  | .resolve _ =>
      .mk (.resolve (get_boxed_transaction t.tx transactions)) t.client t.tx t.amountField
  | _ => t

/-- The fresh account inserted by `accounts.entry(client).or_insert(...)`. -/
def defaultAccount (client : Nat) : Account :=
  { client := client, available := 0, held := 0, locked := false }

/-- The state threaded through the replay loop of `process_transactions`:
the account map and the ledger index of money-movement transactions. -/
structure ReplayState : Type where
  accounts : List (Nat × Account)
  transactions : List (Nat × Transaction)

/-- One iteration of the loop body of `process_transactions` (lib.rs lines
203-226): record money movements in the ledger index, link dispute-family
records, then fetch-or-create the client's account and update it. -/
def processOne (st : ReplayState) (transaction : Transaction) : ReplayState :=
  let step :=
    match transaction.transaction_type with
    | .deposit | .withdrawal =>
        (transaction, mapInsert transaction.tx transaction st.transactions)
    | .dispute _ | .chargeback _ | .resolve _ =>
        (transaction.link_transaction st.transactions, st.transactions)
  let account :=
    (mapLookup step.1.client st.accounts).getD (defaultAccount step.1.client)
  { accounts := mapInsert step.1.client (account.update_transaction step.1) st.accounts,
    transactions := step.2 }

/-- The replay fold over the already-parsed (well-formed) transactions. -/
def replay (st : ReplayState) : List Transaction → ReplayState
  | [] => st
  | t :: rest => replay (processOne st t) rest

/-- The replay fold over raw rows: `reader.deserialize().flatten()` skips
every row the record source failed to parse. -/
def replayRaw (st : ReplayState) : List (Option Transaction) → ReplayState
  | [] => st
  | none :: rest => replayRaw st rest
  | some t :: rest => replayRaw (processOne st t) rest

/-- Embeds `process_transactions` from lib.rs lines 198-228: fold the raw input
rows into the final account map, starting from empty maps. -/
def process_transactions (input : List (Option Transaction)) : List (Nat × Account) :=
  (replayRaw { accounts := [], transactions := [] } input).accounts

/-- The same engine run on a list of well-formed transactions only. -/
def replayWellFormed (input : List Transaction) : List (Nat × Account) :=
  (replay { accounts := [], transactions := [] } input).accounts

/-- The value kinds a serialized account field can hold. -/
inductive FieldValue : Type where
  | nat : Nat → FieldValue
  | dec : Rat → FieldValue
  | bool : Bool → FieldValue
deriving DecidableEq, Repr

/-- Embeds `impl Serialize for Account` (lib.rs lines 112-129): the ordered list of
(field name, value) pairs emitted for one account row. -/
def Account.serializeFields (a : Account) : List (String × FieldValue) :=
  [("client", .nat a.client),
   ("available", .dec a.available),
   ("held", .dec a.held),
   ("locked", .bool a.locked),
   ("balance", .dec a.total)]

/-- Embeds `write_stdout` (lib.rs lines 188-193): serialize every account of the
map, one row per account. -/
def write_stdout (accounts : List (Nat × Account)) : List (List (String × FieldValue)) :=
  accounts.map (fun p => p.2.serializeFields)

/-- Is the transaction type one of Dispute/Resolve/Chargeback? -/
def TransactionType.isDisputeFamily : TransactionType → Bool
  | .dispute _ | .resolve _ | .chargeback _ => true
  | _ => false

/-- Is the transaction type a money movement (Deposit/Withdrawal)? -/
def TransactionType.isMoneyMovement : TransactionType → Bool
  | .deposit | .withdrawal => true
  | _ => false

/-- Every record of client `c` in the list is dangling in the code's sense:
no money-movement record occurring EARLIER in the list carries the same tx
identifier as a later record of client `c` (the ledger index only ever holds
money movements already replayed, so this is exactly when linking finds
nothing for each of `c`'s records). -/
def noPriorMoneyTx (c : Nat) : List Transaction → Prop
  | [] => True
  | u :: rest =>
      (u.transaction_type.isMoneyMovement = true →
        ∀ t ∈ rest, t.client = c → u.tx ≠ t.tx)
      ∧ noPriorMoneyTx c rest

/-- The state `available = 0, held = 10` obtained by disputing a prior
`Deposit(10)` from `available = 10, held = 0`, as in the spec's scenario. -/
theorem dispute_deposit10_state :
    Account.update_transaction ⟨1, 10, 0, false⟩
      (.mk (.dispute (some (.mk .deposit 1 1 (some 10)))) 1 1 none)
      = ⟨1, 0, 10, false⟩ := by
  norm_num [Account.update_transaction, Transaction.transaction_type,
    Transaction.amount, Transaction.amountField, Account.mk.injEq]

/-- C1 counterexample: from `available = 0, held = 10`, a Chargeback linked to
the prior `Deposit(10)` does NOT yield `available = 0, held = 0, locked = true`
as the claim states; the code subtracts the amount from `available` as well,
leaving `available = -10`. -/
theorem c1_chargeback_counterexample :
    Account.update_transaction ⟨1, 0, 10, false⟩
        (.mk (.chargeback (some (.mk .deposit 1 1 (some 10)))) 1 1 none)
      ≠ ⟨1, 0, 0, true⟩ := by
  norm_num [Account.update_transaction, Transaction.transaction_type,
    Transaction.amount, Transaction.amountField, Account.mk.injEq]

/-- C1 (amended): starting from `available = 0, held = 10` (reached after a
Dispute referencing a prior `Deposit(10)`), applying a Chargeback linked to
that Deposit via `update_transaction` yields `available = -10`, `held = 0`,
and `locked = true`. -/
theorem c1_chargeback_from_disputed_deposit :
    Account.update_transaction ⟨1, 0, 10, false⟩
        (.mk (.chargeback (some (.mk .deposit 1 1 (some 10)))) 1 1 none)
      = ⟨1, -10, 0, true⟩ := by
  norm_num [Account.update_transaction, Transaction.transaction_type,
    Transaction.amount, Transaction.amountField, Account.mk.injEq]

/-- C2: for every account state and every Chargeback whose reference resolved
to a record `r`, `update_transaction` subtracts `r`'s amount from `held` and
from `available` and sets `locked`; a Chargeback with no resolved reference
changes nothing. -/
theorem c2_chargeback_semantics (a : Account) (r : Transaction) (c tx : Nat)
    (amt : Option Rat) :
    Account.update_transaction a (.mk (.chargeback (some r)) c tx amt)
        = { a with held := a.held - r.amount, available := a.available - r.amount,
                   locked := true }
    ∧ Account.update_transaction a (.mk (.chargeback none) c tx amt) = a :=
  ⟨rfl, rfl⟩

/-- C3: for every account state and every money-movement record `r`, applying
a Dispute linked to `r` and then a Resolve linked to the same `r` restores
`available` and `held` to their values before the Dispute. -/
theorem c3_dispute_resolve_roundtrip (a : Account) (r : Transaction)
    (c₁ t₁ c₂ t₂ : Nat) (m₁ m₂ : Option Rat)
    (h : r.transaction_type.isMoneyMovement = true) :
    (Account.update_transaction
        (Account.update_transaction a (.mk (.dispute (some r)) c₁ t₁ m₁))
        (.mk (.resolve (some r)) c₂ t₂ m₂)).available = a.available
    ∧ (Account.update_transaction
        (Account.update_transaction a (.mk (.dispute (some r)) c₁ t₁ m₁))
        (.mk (.resolve (some r)) c₂ t₂ m₂)).held = a.held := by
  constructor <;>
    simp [Account.update_transaction, Transaction.transaction_type]

/-- Witness for C3 at a concrete state and record. -/
theorem c3_dispute_resolve_roundtrip_witness :
    (Transaction.mk .deposit 1 1 (some 10)).transaction_type.isMoneyMovement = true
    ∧ ((Account.update_transaction
          (Account.update_transaction ⟨1, 7, 2, false⟩
            (.mk (.dispute (some (.mk .deposit 1 1 (some 10)))) 1 1 none))
          (.mk (.resolve (some (.mk .deposit 1 1 (some 10)))) 1 1 none)).available
        = (Account.mk 1 7 2 false).available
      ∧ (Account.update_transaction
          (Account.update_transaction ⟨1, 7, 2, false⟩
            (.mk (.dispute (some (.mk .deposit 1 1 (some 10)))) 1 1 none))
          (.mk (.resolve (some (.mk .deposit 1 1 (some 10)))) 1 1 none)).held
        = (Account.mk 1 7 2 false).held) :=
  ⟨rfl, c3_dispute_resolve_roundtrip ⟨1, 7, 2, false⟩ (.mk .deposit 1 1 (some 10))
      1 1 1 1 none none rfl⟩

/-- C4: a Dispute, Resolve, or Chargeback whose reference did not resolve
leaves the account (available, held, locked) entirely unchanged; and since
`update_transaction` is a total function into `Account`, no error is surfaced
to the caller. -/
theorem c4_dangling_is_noop (a : Account) (c tx : Nat) (amt : Option Rat) :
    Account.update_transaction a (.mk (.dispute none) c tx amt) = a
    ∧ Account.update_transaction a (.mk (.resolve none) c tx amt) = a
    ∧ Account.update_transaction a (.mk (.chargeback none) c tx amt) = a :=
  ⟨rfl, rfl, rfl⟩

/-- C5: once locked, always locked — no transaction kind ever resets `locked`
to false through `update_transaction`. -/
theorem c5_locked_is_permanent (a : Account) (t : Transaction)
    (h : a.locked = true) :
    (Account.update_transaction a t).locked = true := by
  obtain ⟨tt, c, tx, m⟩ := t
  cases tt with
  | deposit => simpa [Account.update_transaction, Transaction.transaction_type] using h
  | withdrawal => simpa [Account.update_transaction, Transaction.transaction_type] using h
  | dispute o =>
      cases o <;> simpa [Account.update_transaction, Transaction.transaction_type] using h
  | resolve o =>
      cases o <;> simpa [Account.update_transaction, Transaction.transaction_type] using h
  | chargeback o =>
      cases o <;> simp [Account.update_transaction, Transaction.transaction_type, h]

/-- Witness for C5 at a concrete locked account and a deposit. -/
theorem c5_locked_is_permanent_witness :
    (Account.update_transaction ⟨1, 3, 0, true⟩ (.mk .deposit 1 1 (some 5))).locked
      = true :=
  c5_locked_is_permanent ⟨1, 3, 0, true⟩ (.mk .deposit 1 1 (some 5)) rfl

/-- C9: `update_transaction` on a dispute-family record never reads the
record's own `amount` field — two such records differing only in their own
amount produce identical account updates. -/
theorem c9_own_amount_ignored (a : Account) (tt : TransactionType) (c tx : Nat)
    (m₁ m₂ : Option Rat) (h : tt.isDisputeFamily = true) :
    Account.update_transaction a (.mk tt c tx m₁)
      = Account.update_transaction a (.mk tt c tx m₂) := by
  cases tt with
  | deposit => simp [TransactionType.isDisputeFamily] at h
  | withdrawal => simp [TransactionType.isDisputeFamily] at h
  | dispute o => rfl
  | resolve o => rfl
  | chargeback o => rfl

/-- Witness for C9 at a concrete state: a Dispute with own amount 5 versus
own amount absent. -/
theorem c9_own_amount_ignored_witness :
    TransactionType.isDisputeFamily (.dispute none) = true
    ∧ Account.update_transaction ⟨1, 2, 3, false⟩ (.mk (.dispute none) 1 9 (some 5))
        = Account.update_transaction ⟨1, 2, 3, false⟩ (.mk (.dispute none) 1 9 none) :=
  ⟨rfl, c9_own_amount_ignored ⟨1, 2, 3, false⟩ (.dispute none) 1 9 (some 5) none rfl⟩

/-- C6 counterexample: the serialized field names are NOT in the order
`client, available, held, total, locked` claimed by the spec — the code
emits `locked` before the computed total, and serializes the total under
the field name "balance". -/
theorem c6_field_order_counterexample :
    (Account.serializeFields ⟨1, 2, 3, false⟩).map Prod.fst
      ≠ ["client", "available", "held", "total", "locked"] := by
  decide

/-- C6 (amended): every account row emitted by `write_stdout` has its fields
in the order `client, available, held, locked, total`, the computed total
serialized last under the field name "balance", and the emitted total equals
`available + held`. -/
theorem c6_row_format (accounts : List (Nat × Account))
    (row : List (String × FieldValue)) (h : row ∈ write_stdout accounts) :
    row.map Prod.fst = ["client", "available", "held", "locked", "balance"]
    ∧ ∃ a : Account, row = a.serializeFields
        ∧ row.getLast? = some ("balance", FieldValue.dec (a.available + a.held)) := by
  obtain ⟨p, _hp, rfl⟩ := List.mem_map.mp h
  exact ⟨rfl, p.2, rfl, rfl⟩

/-- Witness for C6 (amended) on a one-account map. -/
theorem c6_row_format_witness :
    Account.serializeFields ⟨1, 2, 3, false⟩ ∈ write_stdout [(1, ⟨1, 2, 3, false⟩)]
    ∧ ((Account.serializeFields ⟨1, 2, 3, false⟩).map Prod.fst
          = ["client", "available", "held", "locked", "balance"]
        ∧ ∃ a : Account, Account.serializeFields ⟨1, 2, 3, false⟩ = a.serializeFields
            ∧ (Account.serializeFields ⟨1, 2, 3, false⟩).getLast?
                = some ("balance", FieldValue.dec (a.available + a.held))) :=
  ⟨List.mem_singleton.mpr rfl,
   c6_row_format [(1, ⟨1, 2, 3, false⟩)] _ (List.mem_singleton.mpr rfl)⟩

/-- Replaying raw rows (skipping unparsable ones) from any state equals
replaying the well-formed subsequence from that state. -/
theorem replayRaw_eq_replay (rows : List (Option Transaction)) (st : ReplayState) :
    replayRaw st rows = replay st (rows.filterMap id) := by
  induction rows generalizing st with
  | nil => rfl
  | cons head rest ih => cases head <;> simp [replayRaw, replay, List.filterMap_cons, ih]

/-- C7: `process_transactions` silently skips rows the record source failed
to parse and never fails itself (it is a total function); its result equals
the engine run on exactly the well-formed subsequence of the input. -/
theorem c7_skip_malformed (input : List (Option Transaction)) :
    process_transactions input = replayWellFormed (input.filterMap id) := by
  unfold process_transactions replayWellFormed
  rw [replayRaw_eq_replay]

/-- Looking up the key just inserted returns the inserted value. -/
theorem mapLookup_insert_self {β : Type} (k : Nat) (v : β) (m : List (Nat × β)) :
    mapLookup k (mapInsert k v m) = some v := by
  induction m with
  | nil => simp [mapInsert, mapLookup]
  | cons p rest ih =>
      obtain ⟨k₁, v₁⟩ := p
      by_cases hk : k = k₁ <;> simp [mapInsert, mapLookup, hk, ih]

/-- Inserting under a different key does not change a lookup. -/
theorem mapLookup_insert_ne {β : Type} (k k₁ : Nat) (v : β) (m : List (Nat × β))
    (h : k ≠ k₁) : mapLookup k (mapInsert k₁ v m) = mapLookup k m := by
  induction m with
  | nil => simp [mapInsert, mapLookup, h]
  | cons p rest ih =>
      obtain ⟨k₂, v₂⟩ := p
      by_cases hk : k₁ = k₂
      · subst hk
        simp [mapInsert, mapLookup, h]
      · by_cases hk2 : k = k₂ <;> simp [mapInsert, mapLookup, hk, hk2, ih]

/-- Key membership after an insert. -/
theorem mem_keys_mapInsert {β : Type} (c k : Nat) (v : β) (m : List (Nat × β)) :
    c ∈ (mapInsert k v m).map Prod.fst ↔ c = k ∨ c ∈ m.map Prod.fst := by
  induction m with
  | nil => simp [mapInsert]
  | cons p rest ih =>
      obtain ⟨k₁, v₁⟩ := p
      by_cases hk : k = k₁
      · subst hk
        simp [mapInsert]
      · simp [mapInsert, hk, ih]
        tauto

/-- Insertion preserves distinctness of the keys. -/
theorem nodup_keys_mapInsert {β : Type} (k : Nat) (v : β) (m : List (Nat × β))
    (h : (m.map Prod.fst).Nodup) : ((mapInsert k v m).map Prod.fst).Nodup := by
  induction m with
  | nil => simp [mapInsert]
  | cons p rest ih =>
      obtain ⟨k₁, v₁⟩ := p
      rw [List.map_cons, List.nodup_cons] at h
      by_cases hk : k = k₁
      · subst hk
        simpa [mapInsert] using h
      · rw [show mapInsert k v ((k₁, v₁) :: rest) = (k₁, v₁) :: mapInsert k v rest from by
          simp [mapInsert, hk]]
        rw [List.map_cons, List.nodup_cons]
        refine ⟨fun hmem => ?_, ih h.2⟩
        rcases (mem_keys_mapInsert k₁ k v rest).mp hmem with h1 | h2
        · exact hk h1.symm
        · exact h.1 h2

/-- A lookup misses exactly when the key is absent. -/
theorem mapLookup_eq_none_iff {β : Type} (k : Nat) (m : List (Nat × β)) :
    mapLookup k m = none ↔ k ∉ m.map Prod.fst := by
  induction m with
  | nil => simp [mapLookup]
  | cons p rest ih =>
      obtain ⟨k₁, v₁⟩ := p
      by_cases hk : k = k₁ <;> simp [mapLookup, hk, ih]

/-- Unfolding of `processOne` on a deposit. -/
theorem processOne_deposit (st : ReplayState) (c tx : Nat) (m : Option Rat) :
    processOne st (.mk .deposit c tx m)
      = { accounts := mapInsert c
            (((mapLookup c st.accounts).getD (defaultAccount c)).update_transaction
              (.mk .deposit c tx m)) st.accounts,
          transactions := mapInsert tx (.mk .deposit c tx m) st.transactions } := rfl

/-- Unfolding of `processOne` on a withdrawal. -/
theorem processOne_withdrawal (st : ReplayState) (c tx : Nat) (m : Option Rat) :
    processOne st (.mk .withdrawal c tx m)
      = { accounts := mapInsert c
            (((mapLookup c st.accounts).getD (defaultAccount c)).update_transaction
              (.mk .withdrawal c tx m)) st.accounts,
          transactions := mapInsert tx (.mk .withdrawal c tx m) st.transactions } := rfl

/-- Unfolding of `processOne` on a dispute: the stale reference is replaced
by the ledger lookup, and the ledger index is unchanged. -/
theorem processOne_dispute (st : ReplayState) (o : Option Transaction)
    (c tx : Nat) (m : Option Rat) :
    processOne st (.mk (.dispute o) c tx m)
      = { accounts := mapInsert c
            (((mapLookup c st.accounts).getD (defaultAccount c)).update_transaction
              (.mk (.dispute (mapLookup tx st.transactions)) c tx m)) st.accounts,
          transactions := st.transactions } := rfl

/-- Unfolding of `processOne` on a resolve. -/
theorem processOne_resolve (st : ReplayState) (o : Option Transaction)
    (c tx : Nat) (m : Option Rat) :
    processOne st (.mk (.resolve o) c tx m)
      = { accounts := mapInsert c
            (((mapLookup c st.accounts).getD (defaultAccount c)).update_transaction
              (.mk (.resolve (mapLookup tx st.transactions)) c tx m)) st.accounts,
          transactions := st.transactions } := rfl

/-- Unfolding of `processOne` on a chargeback. -/
theorem processOne_chargeback (st : ReplayState) (o : Option Transaction)
    (c tx : Nat) (m : Option Rat) :
    processOne st (.mk (.chargeback o) c tx m)
      = { accounts := mapInsert c
            (((mapLookup c st.accounts).getD (defaultAccount c)).update_transaction
              (.mk (.chargeback (mapLookup tx st.transactions)) c tx m)) st.accounts,
          transactions := st.transactions } := rfl

/-- One replay step unfolds to processing the head. -/
theorem replay_cons (st : ReplayState) (t : Transaction) (rest : List Transaction) :
    replay st (t :: rest) = replay (processOne st t) rest := rfl

/-- A client is a key of the account map after `processOne` exactly when it
was one before or is the client of the processed record. -/
theorem processOne_keys (st : ReplayState) (u : Transaction) (c : Nat) :
    c ∈ ((processOne st u).accounts.map Prod.fst)
      ↔ c = u.client ∨ c ∈ st.accounts.map Prod.fst := by
  obtain ⟨tt, uc, utx, um⟩ := u
  cases tt <;>
    simp only [processOne_deposit, processOne_withdrawal, processOne_dispute,
      processOne_resolve, processOne_chargeback, Transaction.client] <;>
    exact mem_keys_mapInsert c uc _ st.accounts

/-- The account-map keys stay distinct across `processOne`. -/
theorem processOne_nodup (st : ReplayState) (u : Transaction)
    (h : (st.accounts.map Prod.fst).Nodup) :
    (((processOne st u).accounts).map Prod.fst).Nodup := by
  obtain ⟨tt, uc, utx, um⟩ := u
  cases tt <;>
    simp only [processOne_deposit, processOne_withdrawal, processOne_dispute,
      processOne_resolve, processOne_chargeback] <;>
    exact nodup_keys_mapInsert uc _ st.accounts h

/-- The keys of the account map after a replay are the starting keys plus
the clients of the replayed records. -/
theorem replay_keys (rows : List Transaction) (st : ReplayState) (c : Nat) :
    c ∈ ((replay st rows).accounts.map Prod.fst)
      ↔ c ∈ st.accounts.map Prod.fst ∨ c ∈ rows.map Transaction.client := by
  induction rows generalizing st with
  | nil => simp [replay]
  | cons u rest ih =>
      rw [replay_cons, ih, processOne_keys]
      simp only [List.map_cons, List.mem_cons]
      tauto

/-- The account-map keys stay distinct across a whole replay. -/
theorem replay_nodup (rows : List Transaction) (st : ReplayState)
    (h : (st.accounts.map Prod.fst).Nodup) :
    (((replay st rows).accounts).map Prod.fst).Nodup := by
  induction rows generalizing st with
  | nil => exact h
  | cons u rest ih => exact replay_cons st u rest ▸ ih _ (processOne_nodup st u h)

/-- If every record of client `c` among the remaining rows is dispute-family,
their referenced tx ids are absent from the current ledger index and no
money-movement record of the remaining rows precedes a record of `c` with
its tx, and `c`'s account is currently absent or still the fresh default,
then after the replay `c`'s account is still absent or the fresh default. -/
theorem replay_dangling_default (c : Nat) (rows : List Transaction) :
    ∀ st : ReplayState,
    (∀ t ∈ rows, t.client = c → t.transaction_type.isDisputeFamily = true) →
    (∀ t ∈ rows, t.client = c → mapLookup t.tx st.transactions = none) →
    noPriorMoneyTx c rows →
    (mapLookup c st.accounts = none
      ∨ mapLookup c st.accounts = some (defaultAccount c)) →
    (mapLookup c (replay st rows).accounts = none
      ∨ mapLookup c (replay st rows).accounts = some (defaultAccount c)) := by
  induction rows with
  | nil => exact fun st _ _ _ hacc => hacc
  | cons w rest ih =>
      intro st h1 h2 h3 hacc
      rw [replay_cons]
      simp only [noPriorMoneyTx] at h3
      obtain ⟨tt, uc, utx, um⟩ := w
      have h1r : ∀ t ∈ rest, t.client = c → t.transaction_type.isDisputeFamily = true :=
        fun t ht => h1 t (List.mem_cons_of_mem _ ht)
      cases tt with
      | deposit =>
          have huc : uc ≠ c := fun hEq => by
            simpa [Transaction.transaction_type, TransactionType.isDisputeFamily] using
              h1 (.mk .deposit uc utx um) (List.mem_cons_self _ _) hEq
          refine ih (processOne st (.mk .deposit uc utx um)) h1r ?_ h3.2 ?_
          · intro t ht hc
            have hneq : t.tx ≠ utx := Ne.symm (h3.1 rfl t ht hc)
            have hstep : (processOne st (.mk .deposit uc utx um)).transactions
                = mapInsert utx (.mk .deposit uc utx um) st.transactions := rfl
            rw [hstep, mapLookup_insert_ne _ _ _ _ hneq]
            exact h2 t (List.mem_cons_of_mem _ ht) hc
          · have hstep : (processOne st (.mk .deposit uc utx um)).accounts
                = mapInsert uc (((mapLookup uc st.accounts).getD
                    (defaultAccount uc)).update_transaction
                    (.mk .deposit uc utx um)) st.accounts := rfl
            rw [hstep, mapLookup_insert_ne _ _ _ _ (Ne.symm huc)]
            exact hacc
      | withdrawal =>
          have huc : uc ≠ c := fun hEq => by
            simpa [Transaction.transaction_type, TransactionType.isDisputeFamily] using
              h1 (.mk .withdrawal uc utx um) (List.mem_cons_self _ _) hEq
          refine ih (processOne st (.mk .withdrawal uc utx um)) h1r ?_ h3.2 ?_
          · intro t ht hc
            have hneq : t.tx ≠ utx := Ne.symm (h3.1 rfl t ht hc)
            have hstep : (processOne st (.mk .withdrawal uc utx um)).transactions
                = mapInsert utx (.mk .withdrawal uc utx um) st.transactions := rfl
            rw [hstep, mapLookup_insert_ne _ _ _ _ hneq]
            exact h2 t (List.mem_cons_of_mem _ ht) hc
          · have hstep : (processOne st (.mk .withdrawal uc utx um)).accounts
                = mapInsert uc (((mapLookup uc st.accounts).getD
                    (defaultAccount uc)).update_transaction
                    (.mk .withdrawal uc utx um)) st.accounts := rfl
            rw [hstep, mapLookup_insert_ne _ _ _ _ (Ne.symm huc)]
            exact hacc
      | dispute o =>
          refine ih (processOne st (.mk (.dispute o) uc utx um)) h1r ?_ h3.2 ?_
          · intro t ht hc
            have hstep : (processOne st (.mk (.dispute o) uc utx um)).transactions
                = st.transactions := rfl
            rw [hstep]
            exact h2 t (List.mem_cons_of_mem _ ht) hc
          · have hstep : (processOne st (.mk (.dispute o) uc utx um)).accounts
                = mapInsert uc (((mapLookup uc st.accounts).getD
                    (defaultAccount uc)).update_transaction
                    (.mk (.dispute (mapLookup utx st.transactions)) uc utx um))
                  st.accounts := rfl
            by_cases huc : uc = c
            · subst huc
              have hnone : mapLookup utx st.transactions = none :=
                h2 (.mk (.dispute o) uc utx um) (List.mem_cons_self _ _) rfl
              have hacct : (mapLookup uc st.accounts).getD (defaultAccount uc)
                  = defaultAccount uc := by
                rcases hacc with hA | hA <;> rw [hA] <;> rfl
              rw [hstep, hnone, hacct]
              have hupd : (defaultAccount uc).update_transaction
                  (.mk (.dispute none) uc utx um) = defaultAccount uc := rfl
              rw [hupd, mapLookup_insert_self]
              exact Or.inr rfl
            · rw [hstep, mapLookup_insert_ne _ _ _ _ (fun hE => huc hE.symm)]
              exact hacc
      | resolve o =>
          refine ih (processOne st (.mk (.resolve o) uc utx um)) h1r ?_ h3.2 ?_
          · intro t ht hc
            have hstep : (processOne st (.mk (.resolve o) uc utx um)).transactions
                = st.transactions := rfl
            rw [hstep]
            exact h2 t (List.mem_cons_of_mem _ ht) hc
          · have hstep : (processOne st (.mk (.resolve o) uc utx um)).accounts
                = mapInsert uc (((mapLookup uc st.accounts).getD
                    (defaultAccount uc)).update_transaction
                    (.mk (.resolve (mapLookup utx st.transactions)) uc utx um))
                  st.accounts := rfl
            by_cases huc : uc = c
            · subst huc
              have hnone : mapLookup utx st.transactions = none :=
                h2 (.mk (.resolve o) uc utx um) (List.mem_cons_self _ _) rfl
              have hacct : (mapLookup uc st.accounts).getD (defaultAccount uc)
                  = defaultAccount uc := by
                rcases hacc with hA | hA <;> rw [hA] <;> rfl
              rw [hstep, hnone, hacct]
              have hupd : (defaultAccount uc).update_transaction
                  (.mk (.resolve none) uc utx um) = defaultAccount uc := rfl
              rw [hupd, mapLookup_insert_self]
              exact Or.inr rfl
            · rw [hstep, mapLookup_insert_ne _ _ _ _ (fun hE => huc hE.symm)]
              exact hacc
      | chargeback o =>
          refine ih (processOne st (.mk (.chargeback o) uc utx um)) h1r ?_ h3.2 ?_
          · intro t ht hc
            have hstep : (processOne st (.mk (.chargeback o) uc utx um)).transactions
                = st.transactions := rfl
            rw [hstep]
            exact h2 t (List.mem_cons_of_mem _ ht) hc
          · have hstep : (processOne st (.mk (.chargeback o) uc utx um)).accounts
                = mapInsert uc (((mapLookup uc st.accounts).getD
                    (defaultAccount uc)).update_transaction
                    (.mk (.chargeback (mapLookup utx st.transactions)) uc utx um))
                  st.accounts := rfl
            by_cases huc : uc = c
            · subst huc
              have hnone : mapLookup utx st.transactions = none :=
                h2 (.mk (.chargeback o) uc utx um) (List.mem_cons_self _ _) rfl
              have hacct : (mapLookup uc st.accounts).getD (defaultAccount uc)
                  = defaultAccount uc := by
                rcases hacc with hA | hA <;> rw [hA] <;> rfl
              rw [hstep, hnone, hacct]
              have hupd : (defaultAccount uc).update_transaction
                  (.mk (.chargeback none) uc utx um) = defaultAccount uc := rfl
              rw [hupd, mapLookup_insert_self]
              exact Or.inr rfl
            · rw [hstep, mapLookup_insert_ne _ _ _ _ (fun hE => huc hE.symm)]
              exact hacc

/-- C10: the final account map has exactly one entry per client appearing in
a well-formed input record — its keys are distinct, and a client is a key iff
it appears in a well-formed record; and a client all of whose well-formed
records are dispute-family records that are dangling when processed (no
money-movement record earlier in the input carries their tx) still appears,
with the freshly created account (`available = 0`, `held = 0`,
`locked = false`). -/
theorem c10_one_account_per_client (input : List (Option Transaction)) (c : Nat) :
    (((process_transactions input).map Prod.fst).Nodup
      ∧ (c ∈ (process_transactions input).map Prod.fst
          ↔ c ∈ (input.filterMap id).map Transaction.client))
    ∧ ((∀ t ∈ input.filterMap id, t.client = c →
          t.transaction_type.isDisputeFamily = true) →
        noPriorMoneyTx c (input.filterMap id) →
        c ∈ (input.filterMap id).map Transaction.client →
        mapLookup c (process_transactions input) = some (defaultAccount c)) := by
  have hraw : process_transactions input
      = (replay { accounts := [], transactions := [] } (input.filterMap id)).accounts := by
    unfold process_transactions
    rw [replayRaw_eq_replay]
  refine ⟨⟨?_, ?_⟩, ?_⟩
  · rw [hraw]
    exact replay_nodup _ _ (by simp)
  · rw [hraw, replay_keys]
    simp
  · intro hfam hnpm hmem
    have hd := replay_dangling_default c (input.filterMap id)
        { accounts := [], transactions := [] } hfam (fun t _ _ => rfl) hnpm (Or.inl rfl)
    rw [hraw]
    rcases hd with hnone | hsome
    · exact absurd ((replay_keys _ _ c).mpr (Or.inr hmem))
        ((mapLookup_eq_none_iff _ _).mp hnone)
    · exact hsome

/-- Witness for C10: a client whose only record is a dispute that is dangling
when it is processed still gets the fresh zero account, even though a
money-movement record with the same tx identifier arrives later in the
input. -/
theorem c10_one_account_per_client_witness :
    (∀ t ∈ ([some (Transaction.mk (.dispute none) 7 5 none),
             some (Transaction.mk .deposit 8 5 (some 10))]
          : List (Option Transaction)).filterMap id,
        t.client = 7 → t.transaction_type.isDisputeFamily = true)
    ∧ noPriorMoneyTx 7 (([some (Transaction.mk (.dispute none) 7 5 none),
             some (Transaction.mk .deposit 8 5 (some 10))]
          : List (Option Transaction)).filterMap id)
    ∧ (7 : Nat) ∈ (([some (Transaction.mk (.dispute none) 7 5 none),
             some (Transaction.mk .deposit 8 5 (some 10))]
          : List (Option Transaction)).filterMap id).map Transaction.client
    ∧ mapLookup 7 (process_transactions
          [some (.mk (.dispute none) 7 5 none), some (.mk .deposit 8 5 (some 10))])
        = some (defaultAccount 7) :=
  ⟨by decide,
   by simp [noPriorMoneyTx, Transaction.transaction_type,
      TransactionType.isMoneyMovement],
   by decide,
   (c10_one_account_per_client
       [some (.mk (.dispute none) 7 5 none), some (.mk .deposit 8 5 (some 10))] 7).2
     (by decide)
     (by simp [noPriorMoneyTx, Transaction.transaction_type,
        TransactionType.isMoneyMovement])
     (by decide)⟩

/-- C8: a linked Dispute, Resolve, or Chargeback is applied to the account
named by the dispute-family record's own client `cA`, moving that account's
balances by the referenced record `r`'s amount — with no hypothesis relating
`r`'s client to `cA` — while every other client `cB`'s account entry is left
untouched by the step. Here `acctA` is `cA`'s current (or freshly created)
account and the ledger index resolves `txid` to `r`. -/
theorem c8_family_targets_own_client (st : ReplayState) (cA cB txid : Nat)
    (m : Option Rat) (o : Option Transaction) (r : Transaction) (acctA : Account)
    (hacct : acctA = (mapLookup cA st.accounts).getD (defaultAccount cA))
    (href : mapLookup txid st.transactions = some r)
    (hne : cB ≠ cA) :
    (mapLookup cA (processOne st (.mk (.dispute o) cA txid m)).accounts
        = some ⟨acctA.client, acctA.available - r.amount,
                acctA.held + r.amount, acctA.locked⟩
      ∧ mapLookup cB (processOne st (.mk (.dispute o) cA txid m)).accounts
        = mapLookup cB st.accounts)
    ∧ (mapLookup cA (processOne st (.mk (.resolve o) cA txid m)).accounts
        = some ⟨acctA.client, acctA.available + r.amount,
                acctA.held - r.amount, acctA.locked⟩
      ∧ mapLookup cB (processOne st (.mk (.resolve o) cA txid m)).accounts
        = mapLookup cB st.accounts)
    ∧ (mapLookup cA (processOne st (.mk (.chargeback o) cA txid m)).accounts
        = some ⟨acctA.client, acctA.available - r.amount,
                acctA.held - r.amount, true⟩
      ∧ mapLookup cB (processOne st (.mk (.chargeback o) cA txid m)).accounts
        = mapLookup cB st.accounts) := by
  subst hacct
  refine ⟨⟨?_, ?_⟩, ⟨?_, ?_⟩, ?_, ?_⟩
  · have hstep : (processOne st (.mk (.dispute o) cA txid m)).accounts
        = mapInsert cA (((mapLookup cA st.accounts).getD
            (defaultAccount cA)).update_transaction
            (.mk (.dispute (mapLookup txid st.transactions)) cA txid m)) st.accounts := rfl
    rw [hstep, href]
    exact mapLookup_insert_self _ _ _
  · have hstep : (processOne st (.mk (.dispute o) cA txid m)).accounts
        = mapInsert cA (((mapLookup cA st.accounts).getD
            (defaultAccount cA)).update_transaction
            (.mk (.dispute (mapLookup txid st.transactions)) cA txid m)) st.accounts := rfl
    rw [hstep]
    exact mapLookup_insert_ne _ _ _ _ hne
  · have hstep : (processOne st (.mk (.resolve o) cA txid m)).accounts
        = mapInsert cA (((mapLookup cA st.accounts).getD
            (defaultAccount cA)).update_transaction
            (.mk (.resolve (mapLookup txid st.transactions)) cA txid m)) st.accounts := rfl
    rw [hstep, href]
    exact mapLookup_insert_self _ _ _
  · have hstep : (processOne st (.mk (.resolve o) cA txid m)).accounts
        = mapInsert cA (((mapLookup cA st.accounts).getD
            (defaultAccount cA)).update_transaction
            (.mk (.resolve (mapLookup txid st.transactions)) cA txid m)) st.accounts := rfl
    rw [hstep]
    exact mapLookup_insert_ne _ _ _ _ hne
  · have hstep : (processOne st (.mk (.chargeback o) cA txid m)).accounts
        = mapInsert cA (((mapLookup cA st.accounts).getD
            (defaultAccount cA)).update_transaction
            (.mk (.chargeback (mapLookup txid st.transactions)) cA txid m)) st.accounts := rfl
    rw [hstep, href]
    exact mapLookup_insert_self _ _ _
  · have hstep : (processOne st (.mk (.chargeback o) cA txid m)).accounts
        = mapInsert cA (((mapLookup cA st.accounts).getD
            (defaultAccount cA)).update_transaction
            (.mk (.chargeback (mapLookup txid st.transactions)) cA txid m)) st.accounts := rfl
    rw [hstep]
    exact mapLookup_insert_ne _ _ _ _ hne

/-- Witness for C8: in a state whose ledger maps tx 7 to client 2's deposit
of 10, each of client 1's dispute-family records moves client 1's (freshly
created) account by client 2's amount, and client 2's entry is untouched. -/
theorem c8_family_targets_own_client_witness :
    defaultAccount 1
        = (mapLookup 1 (ReplayState.mk []
            [(7, Transaction.mk .deposit 2 7 (some 10))]).accounts).getD (defaultAccount 1)
    ∧ mapLookup 7 (ReplayState.mk []
          [(7, Transaction.mk .deposit 2 7 (some 10))]).transactions
        = some (Transaction.mk .deposit 2 7 (some 10))
    ∧ (2 : Nat) ≠ 1
    ∧ ((mapLookup 1 (processOne
            (ReplayState.mk [] [(7, Transaction.mk .deposit 2 7 (some 10))])
            (.mk (.dispute none) 1 7 none)).accounts
          = some ⟨(defaultAccount 1).client,
              (defaultAccount 1).available - (Transaction.mk .deposit 2 7 (some 10)).amount,
              (defaultAccount 1).held + (Transaction.mk .deposit 2 7 (some 10)).amount,
              (defaultAccount 1).locked⟩
        ∧ mapLookup 2 (processOne
            (ReplayState.mk [] [(7, Transaction.mk .deposit 2 7 (some 10))])
            (.mk (.dispute none) 1 7 none)).accounts
          = mapLookup 2 (ReplayState.mk []
              [(7, Transaction.mk .deposit 2 7 (some 10))]).accounts)
      ∧ ((mapLookup 1 (processOne
            (ReplayState.mk [] [(7, Transaction.mk .deposit 2 7 (some 10))])
            (.mk (.resolve none) 1 7 none)).accounts
          = some ⟨(defaultAccount 1).client,
              (defaultAccount 1).available + (Transaction.mk .deposit 2 7 (some 10)).amount,
              (defaultAccount 1).held - (Transaction.mk .deposit 2 7 (some 10)).amount,
              (defaultAccount 1).locked⟩
        ∧ mapLookup 2 (processOne
            (ReplayState.mk [] [(7, Transaction.mk .deposit 2 7 (some 10))])
            (.mk (.resolve none) 1 7 none)).accounts
          = mapLookup 2 (ReplayState.mk []
              [(7, Transaction.mk .deposit 2 7 (some 10))]).accounts)
      ∧ (mapLookup 1 (processOne
            (ReplayState.mk [] [(7, Transaction.mk .deposit 2 7 (some 10))])
            (.mk (.chargeback none) 1 7 none)).accounts
          = some ⟨(defaultAccount 1).client,
              (defaultAccount 1).available - (Transaction.mk .deposit 2 7 (some 10)).amount,
              (defaultAccount 1).held - (Transaction.mk .deposit 2 7 (some 10)).amount,
              true⟩
        ∧ mapLookup 2 (processOne
            (ReplayState.mk [] [(7, Transaction.mk .deposit 2 7 (some 10))])
            (.mk (.chargeback none) 1 7 none)).accounts
          = mapLookup 2 (ReplayState.mk []
              [(7, Transaction.mk .deposit 2 7 (some 10))]).accounts))) :=
  ⟨rfl, rfl, by decide,
   c8_family_targets_own_client
     (ReplayState.mk [] [(7, Transaction.mk .deposit 2 7 (some 10))])
     1 2 7 none none (Transaction.mk .deposit 2 7 (some 10)) (defaultAccount 1)
     rfl rfl (by decide)⟩
